import Mathlib

/-!
# Shallow embedding of `gitlab_changelog.py`

This file embeds the version/changelog pipeline of `gitlab_changelog.py`
(data model, regex-driven text normalisation, version bumping, changelog
writing, and the `publish_version` orchestration) as executable Lean
definitions, and proves the specification claims about them.

Python strings are modelled as Lean `String` / `List Char`; the `\d`, `\s`
and custom character classes of the regexes are modelled over ASCII, which
covers every input the program manipulates.  The anchored regexes used by
the source (`^-\s*\[[xX\s]*\]\s*@\s*[a-zA-Z0-9.\-]+`, `^([-\*]\s*)+`,
`(\d+)\.(\d+)\.(\d+)`, `-rc\.(\d+)`) are deterministic: every greedy
quantifier is followed by a character outside its class, so a direct
greedy prefix parser realises Python's leftmost/greedy match semantics.
-/

namespace GitlabChangelog

/-- Python's `str.strip()` / regex `\s` whitespace set (ASCII part). -/
def isPySpace (c : Char) : Bool :=
  c = ' ' ∨ c = '\t' ∨ c = '\n' ∨ c = '\r' ∨ c = Char.ofNat 11 ∨ c = Char.ofNat 12

/-- Python `str.strip()` on a character list: drop whitespace at both ends. -/
def pyStrip (l : List Char) : List Char :=
  ((l.dropWhile isPySpace).reverse.dropWhile isPySpace).reverse

/-- Python `text.split('\n')` (note: `''.split('\n') = ['']`). -/
def splitNl : List Char → List (List Char)
  | [] => [[]]
  | c :: rest =>
    if c = '\n' then [] :: splitNl rest
    else
      match splitNl rest with
      | [] => [[c]]
      | h :: t => (c :: h) :: t

/-- Python `'\n'.join`-style join: `sep.join(items)` for a list of strings. -/
def pyJoin (sep : String) : List String → String
  | [] => ""
  | [x] => x
  | x :: xs => x ++ sep ++ pyJoin sep xs

/-- Character class `[a-zA-Z0-9.\-]` of the reviewer-mention regex. -/
def isHandleChar (c : Char) : Bool :=
  c.isAlpha ∨ c.isDigit ∨ c = '.' ∨ c = '-'

/-- Greedy match of the checkbox-and-handle part
`\[[xX\s]*\]\s*@\s*[a-zA-Z0-9.\-]+` of the "members reference" pattern;
returns the remainder after the matched prefix, or `none` when it does
not match. -/
def checklistTailAfterDash (l : List Char) : Option (List Char) :=
  match l with
  | '[' :: r1 =>
    match r1.dropWhile (fun c => c = 'x' ∨ c = 'X' ∨ isPySpace c) with
    | ']' :: r2 =>
      match (r2.dropWhile isPySpace) with
      | '@' :: r3 =>
        let r4 := r3.dropWhile isPySpace
        if (r4.takeWhile isHandleChar).isEmpty then none
        else some (r4.dropWhile isHandleChar)
      | _ => none
    | _ => none
  | _ => none

/-- Greedy match of `^-\s*\[[xX\s]*\]\s*@\s*[a-zA-Z0-9.\-]+` (the full
"members reference" pattern of `clean_content`): a dash, optional
whitespace, then the checkbox-and-handle fragment; returns the remainder
after the matched prefix, or `none` when the pattern does not match. -/
def memberRefTail (l : List Char) : Option (List Char) :=
  match l with
  | '-' :: r0 => checklistTailAfterDash (r0.dropWhile isPySpace)
  | _ => none

/-- Python `re.sub(r'^-\s*\[[xX\s]*\]\s*@\s*[a-zA-Z0-9.\-]+', '', item)`. -/
def subMemberRef (l : List Char) : List Char :=
  (memberRefTail l).getD l

/-- Python `re.sub(r'^([-\*]\s*)+', '', item)`: strip a maximal leading run of
`-`/`*` bullet markers, each followed by optional whitespace.  The greedy
match of `([-\*]\s*)+` at the start of a string whose first character is a
bullet is exactly its longest prefix of bullet/whitespace characters. -/
def stripBullets (l : List Char) : List Char :=
  match l with
  | [] => []
  | c :: _ =>
    if c = '-' ∨ c = '*' then l.dropWhile (fun d => d = '-' ∨ d = '*' ∨ isPySpace d)
    else l

/-- The per-line normalisation pipeline of `clean_content`:
strip, remove the members-reference prefix and re-strip, remove leading
bullet markers and re-strip. -/
def cleanLine (l : List Char) : List Char :=
  pyStrip (stripBullets (pyStrip (subMemberRef (pyStrip l))))

/-- Function `clean_content(text)`: split on `'\n'`, strip each item, remove
members references, remove leading bullet markers, drop empty items.
The stages mirror the four list comprehensions of the source. -/
def clean_content (text : String) : List String :=
  if text = "" then []
  else
    let items := splitNl text.data
    let items := items.map pyStrip
    let items := items.map (fun item => pyStrip (subMemberRef item))
    let items := items.map (fun item => pyStrip (stripBullets item))
    (items.filter (fun item => !item.isEmpty)).map (fun item => String.mk item)

/-- Function `clean_content` lifted to Python's optional strings: `clean_content(None)`
takes the `if not text` early return. -/
def cleanContentOpt : Option String → List String
  | none => []
  | some t => clean_content t

/-- Numeric value of a digit run, as Python's `int` on a `\d+` group. -/
def digitsToNat (l : List Char) : Nat :=
  l.foldl (fun n c => n * 10 + (c.toNat - '0'.toNat)) 0

/-- Match `(\d+)\.(\d+)\.(\d+)` at the start of the text: three maximal
digit runs separated by dots.  Returns the groups and the remainder after
the match.  (The greedy `\d+` needs no backtracking: shortening a run
would put a digit where the regex requires `'.'`.) -/
def tripleAt (l : List Char) : Option ((List Char × List Char × List Char) × List Char) :=
  let a := l.takeWhile Char.isDigit
  if a.isEmpty then none else
  match l.dropWhile Char.isDigit with
  | '.' :: r1 =>
    let b := r1.takeWhile Char.isDigit
    if b.isEmpty then none else
    match r1.dropWhile Char.isDigit with
    | '.' :: r2 =>
      let c := r2.takeWhile Char.isDigit
      if c.isEmpty then none else some ((a, b, c), r2.dropWhile Char.isDigit)
    | _ => none
  | _ => none

/-- Python `re.search(r'(\d+)\.(\d+)\.(\d+)', text)`: leftmost match, returning
the three digit groups. -/
def findTriple : List Char → Option (List Char × List Char × List Char)
  | [] => none
  | c :: rest =>
    match tripleAt (c :: rest) with
    | some (groups, _) => some groups
    | none => findTriple rest

/-- Match `-rc\.(\d+)` (with `re.IGNORECASE`, so also `-RC.`, `-Rc.`,
`-rC.`) at the start of the text; returns the digit group together with
the verbatim matched prefix. -/
def rcAt (l : List Char) : Option (List Char × List Char) :=
  match l with
  | '-' :: c1 :: c2 :: '.' :: r =>
    if (c1 = 'r' ∨ c1 = 'R') ∧ (c2 = 'c' ∨ c2 = 'C') then
      let d := r.takeWhile Char.isDigit
      if d.isEmpty then none
      else some (d, '-' :: c1 :: c2 :: '.' :: d)
    else none
  | _ => none

/-- Python `re.search(r'-rc\.(\d+)', text, re.IGNORECASE)`: leftmost match,
returning the digit group. -/
def findRc : List Char → Option (List Char)
  | [] => none
  | c :: rest =>
    match rcAt (c :: rest) with
    | some (d, _) => some d
    | none => findRc rest

/-- The only failure `generate_version` raises. -/
inductive GVErr where
  | invalidVersion
  deriving DecidableEq, Repr

/-- Function `generate_version(version, version_type)`.  Returns
`Except.error .invalidVersion` for a raised `InvalidVersion`; a normal
return carries `Option String` because the Python function falls off the
end (returns `None`) for a `version_type` outside
`{'patch','minor','major','rc'}`. -/
def generate_version (version : String) (version_type : String) : Except GVErr (Option String) :=
  let version :=
    if version = "" ∧ version_type = "rc" then "0.0.1-rc.0"
    else if version = "" then "0.0.0"
    else version
  match findTriple version.data with
  | none => .error .invalidVersion
  | some (major, minor, patch) =>
    if version_type = "patch" then
      .ok (some (String.mk major ++ "." ++ String.mk minor ++ "." ++
                 Nat.repr (digitsToNat patch + 1)))
    else if version_type = "minor" then
      .ok (some (String.mk major ++ "." ++ Nat.repr (digitsToNat minor + 1) ++ ".0"))
    else if version_type = "major" then
      .ok (some (Nat.repr (digitsToNat major + 1) ++ ".0.0"))
    else if version_type = "rc" then
      let rc : Nat := ((findRc version.data).map digitsToNat).getD 0
      .ok (some (String.mk major ++ "." ++ String.mk minor ++ "." ++ String.mk patch ++
                 "-rc." ++ Nat.repr (rc + 1)))
    else .ok none

/-- Leftmost match of `(\d+\.\d+\.\d+(-rc\.\d+)?)` (case-insensitive),
returning `group(0)` verbatim. -/
def findVersionToken : List Char → Option (List Char)
  | [] => none
  | c :: rest =>
    match tripleAt (c :: rest) with
    | some ((a, b, p), rem) =>
      let token := a ++ '.' :: b ++ '.' :: p
      match rcAt rem with
      | some (_, matched) => some (token ++ matched)
      | none => some token
    | none => findVersionToken rest

/-- Function `get_current_version(changelog_file_path)` over the file's content:
search the first line for a version token, returning `''` when absent. -/
def get_current_version (content : String) : String :=
  let firstLine := content.data.takeWhile (fun c => c ≠ '\n')
  match findVersionToken firstLine with
  | some t => String.mk t
  | none => ""

/-! ## Side-effecting pipeline

The effectful steps of `publish_version` are modelled by an explicit trace
of events (file reads/writes, subprocess invocations, HTTP calls) paired
with an optional raised error: a step that raises still emits the events
that happened before the `raise`, and the caller sequences steps so that
nothing after a raised step runs.  The outcomes of the external world
(HTTP responses, subprocess exit codes, the file's content, the clock) are
inputs, collected in `PEnv`. -/

/-- Observable effects of the pipeline, in program order. -/
inductive Ev where
  /-- the changelog file is opened and read
  (`get_current_version` / the read in `generate_changelog`) -/
  | readChangelog
  /-- `GET .../merge_requests` in `get_merge_request_changes` -/
  | httpGetMergeRequests
  /-- `GET .../repository/commits/{sha}` in `get_commit_changes` -/
  | httpGetCommit
  /-- the changelog file is overwritten with `content` -/
  | writeChangelog (content : String)
  /-- `git commit -am 'Update changelog (<branch>)'` -/
  | gitCommit (branch : String)
  /-- `git tag <tag>` -/
  | gitTag (tag : String)
  /-- `git push origin master` (`withTags = false`) or
  `git push origin master --tags` (`withTags = true`) -/
  | gitPush (withTags : Bool)
  /-- `POST .../merge_requests` creating the automatic merge request -/
  | httpCreateMergeRequest (description : String)
  /-- `POST .../merge_requests/{iid}/merge` -/
  | httpAcceptMergeRequest
  deriving DecidableEq, Repr

/-- The exceptions `publish_version` can propagate (HTTP-layer failures of
the GET endpoints are not modelled: the claims under study are about runs
in which the forge answers). -/
inductive PErr where
  | invalidVersion
  | noChanges
  | commitError (code : Int)
  | tagError (code : Int)
  | pushError (code : Int)
  deriving DecidableEq, Repr

/-- One merge request as returned by the forge's list endpoint;
`none` models an absent JSON field (`dict.get` returning `None`). -/
structure MRInfo where
  merge_commit_sha : Option String
  description : Option String
  deriving DecidableEq, Repr

/-- The external world of one `publish_version` run: the changelog file's
content, the forge's responses, the subprocess exit codes, the clock, and
the `target_branch` argument.  `branchIsMasterLiteral` models the Python
expression `target_branch is 'master'`: object *identity* with the
interned literal `'master'`, an input of the run that the string value
alone does not determine (a value `"master"` parsed from `sys.argv` is a
distinct object, so identity is `false` for it). -/
structure PEnv where
  fileContent : String
  commitSha : String
  mrList : List MRInfo
  commitTitle : Option String
  commitExit : Int
  tagExit : Int
  push1Exit : Int
  push2Exit : Int
  targetBranch : String
  branchIsMasterLiteral : Bool
  now : String
  deriving DecidableEq, Repr

/-- Result of one effectful step: emitted events plus an optional raised
error. -/
abbrev StepRes := List Ev × Option PErr

/-- Exception-style sequencing: when `a` raised, the next step never
begins; otherwise its events are appended. -/
def stepSeq (a : StepRes) (f : Unit → StepRes) : StepRes :=
  match a with
  | (evs, some e) => (evs, some e)
  | (evs, none) =>
    let r := f ()
    (evs ++ r.1, r.2)

/-- The scan of `get_merge_request_changes` over the listed merge
requests: at the first one whose `merge_commit_sha` equals the given SHA,
return the cleaned description when it is truthy, else `break` (yielding
`[]`); when no SHA matches, fall off the loop with `[]`. -/
def scanMergeRequests (mrs : List MRInfo) (commit_sha : String) : List String :=
  match mrs with
  | [] => []
  | mr :: rest =>
    if mr.merge_commit_sha = some commit_sha then
      match mr.description with
      | some d => if d ≠ "" then clean_content d else []
      | none => []
    else scanMergeRequests rest commit_sha

/-- Function `get_merge_request_changes`: one GET, then the pure scan. -/
def get_merge_request_changes (env : PEnv) : List Ev × List String :=
  ([.httpGetMergeRequests], scanMergeRequests env.mrList env.commitSha)

/-- Function `get_commit_changes`: one GET, then `clean_content(commit.get('title'))`. -/
def get_commit_changes (env : PEnv) : List Ev × List String :=
  ([.httpGetCommit], cleanContentOpt env.commitTitle)

/-- Function `get_version_changes`: merge-request changes when truthy, else the
commit changes. -/
def get_version_changes (env : PEnv) : List Ev × List String :=
  let merge_request_changes := (get_merge_request_changes env).2
  if merge_request_changes ≠ [] then ((get_merge_request_changes env).1, merge_request_changes)
  else ((get_merge_request_changes env).1 ++ (get_commit_changes env).1,
        (get_commit_changes env).2)

/-- The `'{}\n\n{}\n\n{}\n\n{}'` changelog-entry skeleton, with the
changes block `'  - {}'.format('\n  - '.join(version_changes))`. -/
def entryText (version : String) (version_changes : List String) (now content : String) : String :=
  version ++ "\n\n" ++ ("  - " ++ pyJoin "\n  - " version_changes) ++ "\n\n" ++
    now ++ "\n\n" ++ content

/-- Function `generate_changelog(version, version_changes, changelog_file_path)`:
with truthy changes, read the file and overwrite it with the new entry
followed by the old content; with empty changes, raise `NoChanges` without
touching the file.  Besides the step result, the final content of the
changelog file is returned. -/
def generate_changelog (version : String) (version_changes : List String)
    (now content : String) : StepRes × String :=
  if version_changes ≠ [] then
    let written := entryText version version_changes now content
    (([.readChangelog, .writeChangelog written], none), written)
  else (([], some .noChanges), content)

/-- Function `git_commit(target_branch)`: the subprocess always runs; a non-zero
exit code raises `CommitError(return_code)`. -/
def git_commit (env : PEnv) : StepRes :=
  ([.gitCommit env.targetBranch],
   if env.commitExit = 0 then none else some (.commitError env.commitExit))

/-- Function `git_tag(tag)`: the subprocess always runs; a non-zero exit code
raises `TagError(return_code)`. -/
def git_tag (tag : String) (env : PEnv) : StepRes :=
  ([.gitTag tag], if env.tagExit = 0 then none else some (.tagError env.tagExit))

/-- Function `git_push()`: `git push origin master`, then (only when the first
push exited 0) `git push origin master --tags`; either non-zero exit
raises `PushError(return_code)`. -/
def git_push (env : PEnv) : StepRes :=
  if env.push1Exit = 0 then
    ([.gitPush false, .gitPush true],
     if env.push2Exit = 0 then none else some (.pushError env.push2Exit))
  else ([.gitPush false], some (.pushError env.push1Exit))

/-- The merge-request description
`'- {}\n\n- - - \n\n- [ ] @brunabxs'.format('\n- '.join(version_changes))`. -/
def mrDescription (version_changes : List String) : String :=
  "- " ++ pyJoin "\n- " version_changes ++ "\n\n- - - \n\n- [ ] @brunabxs"

/-- Function `git_new_merge_request(...)`: the guard is the Python *identity* test
`if target_branch is not 'master': return`; when identity with the
interned `'master'` literal holds, POST the new merge request and then
POST its merge endpoint (the forge's answers are assumed well-formed). -/
def git_new_merge_request (env : PEnv) (version_changes : List String) : StepRes :=
  if env.branchIsMasterLiteral then
    ([.httpCreateMergeRequest (mrDescription version_changes), .httpAcceptMergeRequest], none)
  else ([], none)

/-- What Python's `'{}'.format` renders for the argument: `generate_version`
returns `None` (rendered `"None"`) only for version types outside the
enumeration, which `publish_version` never selects. -/
def pyFormatArg : Option String → String
  | some s => s
  | none => "None"

/-- The bump-type selection of `publish_version`:
`'rc'` for target branch `'develop'` (value equality), else `'patch'`. -/
def versionType (target_branch : String) : String :=
  if target_branch = "develop" then "rc" else "patch"

/-- Function `publish_version`: the full orchestration, returning the event trace
and the first raised error (if any). -/
def publish_version (env : PEnv) : StepRes :=
  match generate_version (get_current_version env.fileContent) (versionType env.targetBranch) with
  | .error _ => ([.readChangelog], some .invalidVersion)
  | .ok vOpt =>
    let new_version := pyFormatArg vOpt
    let new_version_changes := (get_version_changes env).2
    let rest :=
      stepSeq (generate_changelog new_version new_version_changes env.now env.fileContent).1
        (fun _ => stepSeq (git_commit env)
          (fun _ => stepSeq (git_tag new_version env)
            (fun _ => stepSeq (git_push env)
              (fun _ => git_new_merge_request env new_version_changes))))
    (Ev.readChangelog :: ((get_version_changes env).1 ++ rest.1), rest.2)

/-! ## Specification-side definitions

Definitions below this point follow the wording of specification claims
(for comparison against the source embedding above); each one says so. -/

/-- Modelled from the spec wording of claim C5: the rc pattern
`-rc\.(\d+)` read literally, i.e. matched case-sensitively (no
`re.IGNORECASE`). -/
def rcAtCaseSensitive (l : List Char) : Option (List Char) :=
  match l with
  | '-' :: 'r' :: 'c' :: '.' :: r =>
    let d := r.takeWhile Char.isDigit
    if d.isEmpty then none else some d
  | _ => none

/-- Modelled from the spec wording of claim C5: leftmost case-sensitive
match of `-rc\.(\d+)`. -/
def findRcCaseSensitive : List Char → Option (List Char)
  | [] => none
  | c :: rest =>
    match rcAtCaseSensitive (c :: rest) with
    | some d => some d
    | none => findRcCaseSensitive rest

/-- Modelled from the spec wording of claim C5: the value the claim
predicts for `generate_version(v, 'rc')` on a version containing the
triple `a.b.c` — the rc counter comes from the claim's (case-sensitive)
pattern, defaulting to 0 when that pattern is absent. -/
def claimRcResult (v : String) (a b c : List Char) : String :=
  String.mk a ++ "." ++ String.mk b ++ "." ++ String.mk c ++ "-rc." ++
    Nat.repr (((findRcCaseSensitive v.data).map digitsToNat).getD 0 + 1)

/-! ## Claims -/

instance {ε α : Type} [DecidableEq ε] [DecidableEq α] : DecidableEq (Except ε α) :=
  fun x y =>
    match x, y with
    | .ok a, .ok b =>
      if h : a = b then isTrue (by rw [h]) else isFalse (fun he => h (Except.ok.inj he))
    | .error a, .error b =>
      if h : a = b then isTrue (by rw [h]) else isFalse (fun he => h (Except.error.inj he))
    | .ok _, .error _ => isFalse (fun he => Except.noConfusion he)
    | .error _, .ok _ => isFalse (fun he => Except.noConfusion he)

/-- Claim C1, counterexample: the claim states that
`generate_version('', 'rc')` returns exactly `'0.0.1-rc.0'`; the code
returns `'0.0.1-rc.1'`: the empty version is defaulted to the baseline
`'0.0.1-rc.0'`, and the `rc` branch then extracts that baseline's rc
counter `0` and increments it. -/
theorem generate_version_empty_rc_ne_claim :
    generate_version "" "rc" = Except.ok (some "0.0.1-rc.1") ∧
    generate_version "" "rc" ≠ Except.ok (some "0.0.1-rc.0") := by
  constructor <;> decide

/-- Claim C1, amended: `generate_version` applied to an empty version
string with bump kind `'rc'` returns exactly the string `'0.0.1-rc.1'`
(the baseline `'0.0.1-rc.0'` is installed for an empty version and its rc
counter is then incremented). -/
theorem generate_version_empty_rc :
    generate_version "" "rc" = Except.ok (some "0.0.1-rc.1") := by
  decide

/-- Claim C4: for every version string `v` in which the regex
`(\d+)\.(\d+)\.(\d+)` finds a triple with groups `a`, `b`, `c`:
`generate_version(v, 'patch')` returns `a.b.(c+1)` with `a`, `b`
unchanged (verbatim), `generate_version(v, 'minor')` returns `a.(b+1).0`,
and `generate_version(v, 'major')` returns `(a+1).0.0`; the incremented
component is re-rendered in decimal. -/
theorem generate_version_patch_minor_major (v : String) (a b c : List Char)
    (h : findTriple v.data = some (a, b, c)) :
    generate_version v "patch" =
      Except.ok (some (String.mk a ++ "." ++ String.mk b ++ "." ++
        Nat.repr (digitsToNat c + 1))) ∧
    generate_version v "minor" =
      Except.ok (some (String.mk a ++ "." ++ Nat.repr (digitsToNat b + 1) ++ ".0")) ∧
    generate_version v "major" =
      Except.ok (some (Nat.repr (digitsToNat a + 1) ++ ".0.0")) := by
  have hv : v ≠ "" := by
    intro he
    have hnone : findTriple ("" : String).data = none := by decide
    rw [he, hnone] at h
    exact Option.noConfusion h
  refine ⟨?_, ?_, ?_⟩ <;> simp [generate_version, hv, h]

/-- Claim C4, witness: the theorem applied at `v = "1.2.3"`. -/
theorem generate_version_patch_minor_major_witness :
    generate_version "1.2.3" "patch" = Except.ok (some "1.2.4") ∧
    generate_version "1.2.3" "minor" = Except.ok (some "1.3.0") ∧
    generate_version "1.2.3" "major" = Except.ok (some "2.0.0") := by
  obtain ⟨h1, h2, h3⟩ :=
    generate_version_patch_minor_major "1.2.3" ['1'] ['2'] ['3'] (by decide)
  exact ⟨by rw [h1]; decide, by rw [h2]; decide, by rw [h3]; decide⟩

/-- Claim C5, counterexample: the claim extracts the rc counter "via
pattern `-rc\.(\d+)`", read literally (case-sensitively): on
`'1.2.3-RC.7'` that pattern is absent, so the claim predicts
`n = 0` and result `'1.2.3-rc.1'`.  The code matches with
`re.IGNORECASE`, extracts `7`, and returns `'1.2.3-rc.8'`. -/
theorem generate_version_rc_case_counterexample :
    findTriple ("1.2.3-RC.7" : String).data = some (['1'], ['2'], ['3']) ∧
    claimRcResult "1.2.3-RC.7" ['1'] ['2'] ['3'] = "1.2.3-rc.1" ∧
    generate_version "1.2.3-RC.7" "rc" = Except.ok (some "1.2.3-rc.8") ∧
    generate_version "1.2.3-RC.7" "rc" ≠
      Except.ok (some (claimRcResult "1.2.3-RC.7" ['1'] ['2'] ['3'])) := by
  refine ⟨by decide, by decide, by decide, by decide⟩

/-- Claim C5, amended: for every non-empty version string in which
`(\d+)\.(\d+)\.(\d+)` finds the triple `a.b.c`, `generate_version(v,'rc')`
returns `a.b.c-rc.(n+1)` where `n` is the rc counter extracted from the
input via the pattern `-rc\.(\d+)` applied **case-insensitively** (as the
code's `re.IGNORECASE` does), or `0` if that pattern is absent; in
particular `generate_version('1.2.3-rc.1','rc') = '1.2.3-rc.2'` and
`generate_version('1.2.3','rc') = '1.2.3-rc.1'`. -/
theorem generate_version_rc_bump :
    (∀ (v : String) (a b c : List Char), v ≠ "" → findTriple v.data = some (a, b, c) →
      generate_version v "rc" =
        Except.ok (some (String.mk a ++ "." ++ String.mk b ++ "." ++ String.mk c ++
          "-rc." ++ Nat.repr (((findRc v.data).map digitsToNat).getD 0 + 1)))) ∧
    generate_version "1.2.3-rc.1" "rc" = Except.ok (some "1.2.3-rc.2") ∧
    generate_version "1.2.3" "rc" = Except.ok (some "1.2.3-rc.1") := by
  refine ⟨?_, by decide, by decide⟩
  intro v a b c hv h
  simp [generate_version, hv, h]

/-- Claim C5, witness: the universal part of the theorem applied at
`v = "1.2.3-rc.1"`. -/
theorem generate_version_rc_bump_witness :
    generate_version "1.2.3-rc.1" "rc" = Except.ok (some "1.2.3-rc.2") := by
  have h := generate_version_rc_bump.1 "1.2.3-rc.1" ['1'] ['2'] ['3']
    (by decide) (by decide)
  rw [h]; decide

/-- Claim C8: for the empty change set, `generate_changelog` raises
`NoChanges`, emits no events at all (in particular no write), and the
changelog file's content is unchanged. -/
theorem generate_changelog_no_changes (version now content : String) :
    (generate_changelog version [] now content).1.2 = some PErr.noChanges ∧
    (generate_changelog version [] now content).2 = content ∧
    (generate_changelog version [] now content).1.1 = [] := by
  refine ⟨rfl, rfl, rfl⟩

/-- Python's `'  - {}'.format('\n  - '.join(changes))` block, seen as one
line `'  - ' ++ item` per change item. -/
theorem changes_block_eq (l : List String) (h : l ≠ []) :
    "  - " ++ pyJoin "\n  - " l = pyJoin "\n" (l.map (fun c => "  - " ++ c)) := by
  induction l with
  | nil => exact absurd rfl h
  | cons x xs ih =>
    cases xs with
    | nil => rfl
    | cons y ys =>
      have hxs : ("  - " : String) ++ pyJoin "\n  - " (y :: ys) =
          pyJoin "\n" ((y :: ys).map (fun c => "  - " ++ c)) := ih (by simp)
      show ("  - " : String) ++ (x ++ "\n  - " ++ pyJoin "\n  - " (y :: ys)) = _
      apply String.ext
      simp only [String.data_append, List.append_assoc]
      have := congrArg String.data hxs
      simp only [String.data_append] at this
      simp [pyJoin, String.data_append, this]

/-- Claim C9: for every non-empty change set, `generate_changelog`
overwrites the changelog file with: the version line, a blank line, the
change items each rendered as `'  - ' ++ item`, a blank line, the
timestamp line, a blank line, and then the file's entire prior content
verbatim; exactly one read and one write of that content happen and no
error is raised. -/
theorem generate_changelog_prepends (version : String) (changes : List String)
    (now content : String) (h : changes ≠ []) :
    (generate_changelog version changes now content).2 =
      version ++ "\n\n" ++ pyJoin "\n" (changes.map (fun c => "  - " ++ c)) ++
        "\n\n" ++ now ++ "\n\n" ++ content ∧
    (generate_changelog version changes now content).1 =
      ([Ev.readChangelog,
        Ev.writeChangelog ((generate_changelog version changes now content).2)], none) := by
  have hblock := changes_block_eq changes h
  constructor
  · simp only [generate_changelog, entryText, if_pos h]
    rw [hblock]
  · simp [generate_changelog, h]

/-- Claim C9, witness: the theorem applied at the spec's example
(`version = "1.0.1"`, `changes = ["Fix X"]`). -/
theorem generate_changelog_prepends_witness :
    (generate_changelog "1.0.1" ["Fix X"] "Tue, Jan 01 2019 10:00:00  " "old\n").2 =
      "1.0.1\n\n  - Fix X\n\nTue, Jan 01 2019 10:00:00  \n\nold\n" ∧
    (generate_changelog "1.0.1" ["Fix X"] "Tue, Jan 01 2019 10:00:00  " "old\n").1 =
      ([Ev.readChangelog,
        Ev.writeChangelog "1.0.1\n\n  - Fix X\n\nTue, Jan 01 2019 10:00:00  \n\nold\n"],
       none) := by
  obtain ⟨h1, h2⟩ := generate_changelog_prepends "1.0.1" ["Fix X"]
    "Tue, Jan 01 2019 10:00:00  " "old\n" (by simp)
  refine ⟨by rw [h1]; decide, ?_⟩
  rw [h2, h1]
  decide

/-- Claim C6: `get_version_changes` gives the merge-request source
absolute precedence: whenever the merge-request scan yields a non-empty
change set, that set is returned and the commit endpoint is never
contacted; the commit endpoint is contacted exactly when the
merge-request changes are empty, and then its cleaned title is the
result. -/
theorem get_version_changes_precedence (env : PEnv) :
    (scanMergeRequests env.mrList env.commitSha ≠ [] →
      get_version_changes env =
        ([Ev.httpGetMergeRequests], scanMergeRequests env.mrList env.commitSha)) ∧
    (scanMergeRequests env.mrList env.commitSha = [] →
      get_version_changes env =
        ([Ev.httpGetMergeRequests, Ev.httpGetCommit], cleanContentOpt env.commitTitle)) ∧
    (Ev.httpGetCommit ∈ (get_version_changes env).1 ↔
      scanMergeRequests env.mrList env.commitSha = []) := by
  by_cases h : scanMergeRequests env.mrList env.commitSha = [] <;>
    simp [get_version_changes, get_merge_request_changes, get_commit_changes, h]

/-- Claim C6, witness: the theorem applied at an environment whose listed
merge request matches the SHA with a truthy description. -/
theorem get_version_changes_precedence_witness :
    get_version_changes
      { fileContent := "", commitSha := "sha1",
        mrList := [{ merge_commit_sha := some "sha1", description := some "- Fix X" }],
        commitTitle := some "title", commitExit := 0, tagExit := 0,
        push1Exit := 0, push2Exit := 0, targetBranch := "master",
        branchIsMasterLiteral := false, now := "" } =
      ([Ev.httpGetMergeRequests], ["Fix X"]) := by
  have h := (get_version_changes_precedence
    { fileContent := "", commitSha := "sha1",
      mrList := [{ merge_commit_sha := some "sha1", description := some "- Fix X" }],
      commitTitle := some "title", commitExit := 0, tagExit := 0,
      push1Exit := 0, push2Exit := 0, targetBranch := "master",
      branchIsMasterLiteral := false, now := "" }).1 (by decide)
  rw [h]
  decide

theorem filter_nonempty_map_mk (L : List (List Char)) :
    (L.filter (fun x => !x.isEmpty)).map String.mk
      = L.filterMap (fun x => if x.isEmpty then none else some (String.mk x)) := by
  induction L with
  | nil => rfl
  | cons x xs ih =>
    by_cases hx : x = []
    · subst hx; simp [List.filter_cons, List.filterMap_cons, ih]
    · have hx' : x.isEmpty = false := by simp [List.isEmpty_iff, hx]
      simp [List.filter_cons, List.filterMap_cons, hx, hx', ih]

/-- Function `clean_content` as a single per-line pass: split on `'\n'`, apply the
line pipeline `cleanLine` to every line in order, keep the non-empty
results.  (Also shows the `if not text` guard is redundant.) -/
theorem clean_content_lines (text : String) :
    clean_content text =
      ((splitNl text.data).map cleanLine).filterMap
        (fun l => if l.isEmpty then none else some (String.mk l)) := by
  by_cases h : text = ""
  · subst h; decide
  · simp only [clean_content, if_neg h, List.map_map]
    rw [← filter_nonempty_map_mk]
    rfl

/-- Claim C7: `clean_content` splits its input on line breaks and
processes each line independently and in order: trim whitespace, strip a
leading `- [ ] @handle` reviewer-checklist marker, strip any leading run
of `-`/`*` bullet markers, and keep the line exactly when the result is
non-empty — nothing else is dropped or reordered; in particular
`clean_content("- Fixed bug\n- Added feature") = ["Fixed bug", "Added
feature"]`, `clean_content("- [ ] @alice\n- - -\n") = []`, and
`clean_content("") = []`. -/
theorem clean_content_per_line :
    (∀ text : String, clean_content text =
      ((splitNl text.data).map cleanLine).filterMap
        (fun l => if l.isEmpty then none else some (String.mk l))) ∧
    clean_content "- Fixed bug\n- Added feature" = ["Fixed bug", "Added feature"] ∧
    clean_content "- [ ] @alice\n- - -\n" = [] ∧
    clean_content "" = [] :=
  ⟨clean_content_lines, by decide, by decide, by decide⟩

/-- Recognises the tag step's event. -/
def isTagEv : Ev → Bool
  | .gitTag _ => true
  | _ => false

/-- Recognises either push operation's event. -/
def isPushEv : Ev → Bool
  | .gitPush _ => true
  | _ => false

/-- Recognises the merge-request step's events (creation or merge). -/
def isMrStepEv : Ev → Bool
  | .httpCreateMergeRequest _ => true
  | .httpAcceptMergeRequest => true
  | _ => false

/-- Recognises the commit step's event. -/
def isCommitEv : Ev → Bool
  | .gitCommit _ => true
  | _ => false

/-- Recognises a changelog write. -/
def isWriteEv : Ev → Bool
  | .writeChangelog _ => true
  | _ => false

/-- The change-retrieval step emits one GET, or two when it falls back to
the commit endpoint. -/
theorem get_version_changes_events (env : PEnv) :
    (get_version_changes env).1 = [Ev.httpGetMergeRequests] ∨
    (get_version_changes env).1 = [Ev.httpGetMergeRequests, Ev.httpGetCommit] := by
  by_cases h : scanMergeRequests env.mrList env.commitSha = [] <;>
    simp [get_version_changes, get_merge_request_changes, get_commit_changes, h]

/-- Claim C3: `publish_version` is fail-fast.  When the commit step exits
non-zero, no tag, push, or merge-request event ever appears in the run's
trace; and in general each failure blocks all later steps: empty changes
block the write, commit, tag, push and merge-request steps; a failed tag
blocks both pushes and the merge request; a failed first push blocks the
tags push and the merge request; a failed tags push blocks the merge
request.  (Inside `publish_version` the version-generation step never
raises: an unparsable changelog head yields `''`, which
`generate_version` defaults before searching.) -/
theorem publish_version_fail_fast (env : PEnv) :
    (env.commitExit ≠ 0 →
      ((publish_version env).1.all
        (fun e => !(isTagEv e || isPushEv e || isMrStepEv e))) = true) ∧
    ((get_version_changes env).2 = [] →
      ((publish_version env).1.all
        (fun e => !(isWriteEv e || isCommitEv e || isTagEv e || isPushEv e ||
                    isMrStepEv e))) = true) ∧
    (env.tagExit ≠ 0 →
      ((publish_version env).1.all (fun e => !(isPushEv e || isMrStepEv e))) = true) ∧
    (env.push1Exit ≠ 0 →
      ((publish_version env).1.all
        (fun e => !(e = Ev.gitPush true || isMrStepEv e))) = true) ∧
    (env.push2Exit ≠ 0 →
      ((publish_version env).1.all (fun e => !isMrStepEv e)) = true) := by
  rcases get_version_changes_events env with hev | hev <;>
  cases hgv : generate_version (get_current_version env.fileContent)
      (versionType env.targetBranch) with
  | error e =>
    refine ⟨?_, ?_, ?_, ?_, ?_⟩ <;> intro hc <;>
      simp [publish_version, hgv, isTagEv, isPushEv, isMrStepEv, isWriteEv, isCommitEv]
  | ok vOpt =>
    by_cases hch : (get_version_changes env).2 = []
    · refine ⟨?_, ?_, ?_, ?_, ?_⟩ <;> intro hc <;>
        simp [publish_version, hgv, hev, hch, stepSeq, generate_changelog,
          isTagEv, isPushEv, isMrStepEv, isWriteEv, isCommitEv]
    · by_cases hcm : env.commitExit = 0
      · by_cases htg : env.tagExit = 0
        · by_cases hp1 : env.push1Exit = 0
          · refine ⟨fun hc => absurd hcm hc, fun hc => absurd hc hch,
              fun hc => absurd htg hc, fun hc => absurd hp1 hc, ?_⟩
            intro hp2
            simp [publish_version, hgv, hev, hch, stepSeq, generate_changelog,
              git_commit, git_tag, git_push, hcm, htg, hp1, hp2,
              isTagEv, isPushEv, isMrStepEv, isWriteEv, isCommitEv]
          · refine ⟨fun hc => absurd hcm hc, fun hc => absurd hc hch,
              fun hc => absurd htg hc, ?_, ?_⟩ <;> intro hc <;>
              simp [publish_version, hgv, hev, hch, stepSeq, generate_changelog,
                git_commit, git_tag, git_push, hcm, htg, hp1,
                isTagEv, isPushEv, isMrStepEv, isWriteEv, isCommitEv]
        · refine ⟨fun hc => absurd hcm hc, fun hc => absurd hc hch, ?_, ?_, ?_⟩ <;>
            intro hc <;>
            simp [publish_version, hgv, hev, hch, stepSeq, generate_changelog,
              git_commit, git_tag, hcm, htg,
              isTagEv, isPushEv, isMrStepEv, isWriteEv, isCommitEv]
      · refine ⟨?_, fun hc => absurd hc hch, ?_, ?_, ?_⟩ <;> intro hc <;>
          simp [publish_version, hgv, hev, hch, stepSeq, generate_changelog,
            git_commit, hcm,
            isTagEv, isPushEv, isMrStepEv, isWriteEv, isCommitEv]

/-- A run whose every git subprocess would fail and whose forge yields a
change item: the fail-fast theorem's witnesses for the commit/tag/push
conjuncts. -/
def envAllGitFail : PEnv :=
  { fileContent := "1.2.3\n", commitSha := "sha1",
    mrList := [{ merge_commit_sha := some "sha1", description := some "- Fix X" }],
    commitTitle := some "title", commitExit := 1, tagExit := 1,
    push1Exit := 1, push2Exit := 1, targetBranch := "master",
    branchIsMasterLiteral := true, now := "NOW" }

/-- A run whose forge yields no changes at all: the fail-fast theorem's
witness for the `NoChanges` conjunct. -/
def envNoChanges : PEnv :=
  { envAllGitFail with mrList := [], commitTitle := none }

/-- Claim C3, witness: the theorem applied at `envAllGitFail` (all four git
exit codes non-zero) and at `envNoChanges` (empty change set), with every
hypothesis discharged concretely. -/
theorem publish_version_fail_fast_witness :
    ((publish_version envAllGitFail).1.all
      (fun e => !(isTagEv e || isPushEv e || isMrStepEv e))) = true ∧
    ((publish_version envAllGitFail).1.all (fun e => !(isPushEv e || isMrStepEv e))) = true ∧
    ((publish_version envAllGitFail).1.all
      (fun e => !(e = Ev.gitPush true || isMrStepEv e))) = true ∧
    ((publish_version envAllGitFail).1.all (fun e => !isMrStepEv e)) = true ∧
    ((publish_version envNoChanges).1.all
      (fun e => !(isWriteEv e || isCommitEv e || isTagEv e || isPushEv e ||
                  isMrStepEv e))) = true := by
  obtain ⟨h1, -, h3, h4, h5⟩ := publish_version_fail_fast envAllGitFail
  obtain ⟨-, g2, -, -, -⟩ := publish_version_fail_fast envNoChanges
  exact ⟨h1 (by decide), h3 (by decide), h4 (by decide), h5 (by decide), g2 (by decide)⟩

/-- A run of the real CLI whose `--target_branch` argument is `master`:
the value of `target_branch` is the string `"master"`, but as a fresh
object parsed out of `sys.argv` it is not the same object as the interned
literal `'master'`, so the Python identity test `target_branch is
'master'` is false.  Every other step succeeds. -/
def envMasterFromArgv : PEnv :=
  { fileContent := "1.2.3\n", commitSha := "sha1",
    mrList := [{ merge_commit_sha := some "sha1", description := some "- Fix X" }],
    commitTitle := some "title", commitExit := 0, tagExit := 0,
    push1Exit := 0, push2Exit := 0, targetBranch := "master",
    branchIsMasterLiteral := false, now := "NOW" }

/-- Claim C2, demonstrating the identity-versus-equality bug: `git_new_merge_request`
guards with `if target_branch is not 'master'` — object identity, not
string equality.  On a fully successful run whose `target_branch` equals
`"master"` but is not the interned literal (as happens for the value
argparse builds from the command line), the pipeline completes without
creating any merge request, contradicting the claim's "for every input
with `target_branch == 'master'` the step runs after a successful push";
when the argument happens to be the interned literal itself, the step
does run. -/
theorem publish_version_master_identity :
    envMasterFromArgv.targetBranch = "master" ∧
    (publish_version envMasterFromArgv).2 = none ∧
    ((publish_version envMasterFromArgv).1.all (fun e => !isMrStepEv e)) = true ∧
    Ev.httpCreateMergeRequest (mrDescription ["Fix X"]) ∈
      (publish_version { envMasterFromArgv with branchIsMasterLiteral := true }).1 := by
  refine ⟨rfl, by decide, by decide, by decide⟩

theorem splitNl_no_nl (a : List Char) (ha : '\n' ∉ a) : splitNl a = [a] := by
  induction a with
  | nil => rfl
  | cons x xs ih =>
    have hx : ¬x = '\n' := fun he => ha (he ▸ List.mem_cons_self x xs)
    have hxs := ih (fun hm => ha (List.mem_cons_of_mem _ hm))
    simp [splitNl, hx, hxs]

theorem splitNl_append_nl (a b : List Char) (ha : '\n' ∉ a) :
    splitNl (a ++ '\n' :: b) = a :: splitNl b := by
  induction a with
  | nil => simp [splitNl]
  | cons x xs ih =>
    have hx : ¬x = '\n' := fun he => ha (he ▸ List.mem_cons_self x xs)
    have hxs := ih (fun hm => ha (List.mem_cons_of_mem _ hm))
    simp [splitNl, hx, hxs]

theorem pyStrip_eq_self {l : List Char} (h : pyStrip l = l) :
    l.dropWhile isPySpace = l ∧ l.reverse.dropWhile isPySpace = l.reverse := by
  have hlen1 : (l.dropWhile isPySpace).length ≤ l.length :=
    (List.dropWhile_suffix _).sublist.length_le
  have hlen2 : (pyStrip l).length ≤ (l.dropWhile isPySpace).length := by
    unfold pyStrip
    rw [List.length_reverse]
    calc ((l.dropWhile isPySpace).reverse.dropWhile isPySpace).length
        ≤ (l.dropWhile isPySpace).reverse.length :=
          (List.dropWhile_suffix _).sublist.length_le
      _ = (l.dropWhile isPySpace).length := List.length_reverse _
  have hlen : (l.dropWhile isPySpace).length = l.length := by
    have := congrArg List.length h
    omega
  have hfront : l.dropWhile isPySpace = l :=
    (List.dropWhile_suffix _).sublist.eq_of_length hlen
  refine ⟨hfront, ?_⟩
  have h2 : (l.reverse.dropWhile isPySpace).reverse = l := by
    calc (l.reverse.dropWhile isPySpace).reverse
        = ((l.dropWhile isPySpace).reverse.dropWhile isPySpace).reverse := by rw [hfront]
      _ = pyStrip l := rfl
      _ = l := h
  calc l.reverse.dropWhile isPySpace
      = ((l.reverse.dropWhile isPySpace).reverse).reverse := (List.reverse_reverse _).symm
    _ = l.reverse := by rw [h2]

theorem dropWhile_eq_self_head {p : Char → Bool} {hd : Char} {tl : List Char}
    (h : (hd :: tl).dropWhile p = hd :: tl) : p hd = false := by
  by_contra hp
  have hp' : p hd = true := by
    cases hph : p hd with
    | false => exact absurd hph hp
    | true => rfl
  rw [List.dropWhile_cons_of_pos hp'] at h
  have := congrArg List.length h
  have hle : (tl.dropWhile p).length ≤ tl.length :=
    (List.dropWhile_suffix _).sublist.length_le
  simp at this
  omega

/-- The first character (when any) is not a `-`/`*` bullet marker. -/
def headNotBullet : List Char → Bool
  | [] => true
  | hd :: _ => !(hd = '-' ∨ hd = '*')

/-- A well-formed change item in the sense of claim C10: non-empty,
single-line, whitespace-trimmed, not beginning with a `-`/`*` bullet
marker nor with a checklist fragment `[ ] @handle`. -/
def goodChangeItem (c : String) : Bool :=
  !(c == "") && c.data.all (fun ch => !(ch == '\n')) &&
  (pyStrip c.data == c.data) && headNotBullet c.data &&
  !(checklistTailAfterDash c.data).isSome

/-- On a well-formed change item, the line pipeline of `clean_content`
strips exactly the `'- '` bullet that `git_new_merge_request` added. -/
theorem cleanLine_bulleted (c : String) (hg : goodChangeItem c = true) :
    cleanLine ('-' :: ' ' :: c.data) = c.data := by
  rw [goodChangeItem, Bool.and_eq_true, Bool.and_eq_true, Bool.and_eq_true,
    Bool.and_eq_true] at hg
  obtain ⟨⟨⟨⟨h1, -⟩, h3⟩, hhead⟩, h5⟩ := hg
  have hne : c ≠ "" := by
    intro he
    rw [he] at h1
    exact absurd h1 (by decide)
  have hstrip : pyStrip c.data = c.data := by simpa using h3
  have hcl : checklistTailAfterDash c.data = none := by
    cases hopt : checklistTailAfterDash c.data with
    | none => rfl
    | some x => rw [hopt] at h5; simp at h5
  have hdata : c.data ≠ [] := by
    intro h0
    exact hne (String.ext (show c.data = "".data by rw [h0]))
  obtain ⟨hd, tl, hc⟩ : ∃ hd tl, c.data = hd :: tl := by
    cases hcd : c.data with
    | nil => exact absurd hcd hdata
    | cons a b => exact ⟨a, b, rfl⟩
  have hpair := pyStrip_eq_self hstrip
  have hhd_space : isPySpace hd = false := by
    have hthis := hpair.1
    rw [hc] at hthis
    exact dropWhile_eq_self_head hthis
  obtain ⟨y, ys, hy⟩ : ∃ y ys, c.data.reverse = y :: ys := by
    cases hcr : c.data.reverse with
    | nil => exact absurd (by simpa using congrArg List.reverse hcr) hdata
    | cons a b => exact ⟨a, b, rfl⟩
  have hlast_space : isPySpace y = false := by
    have hthis := hpair.2
    rw [hy] at hthis
    exact dropWhile_eq_self_head hthis
  have hhd_bullet : ¬(hd = '-' ∨ hd = '*') := by
    rw [hc] at hhead
    simpa [headNotBullet] using hhead
  -- the added bullet line is already stripped
  have hA : pyStrip ('-' :: ' ' :: c.data) = '-' :: ' ' :: c.data := by
    unfold pyStrip
    rw [List.dropWhile_cons_of_neg (by decide)]
    have hrev : ('-' :: ' ' :: c.data).reverse = y :: (ys ++ [' ', '-']) := by
      simp [hy]
    rw [hrev, List.dropWhile_cons_of_neg (by simp [hlast_space]), ← hrev,
      List.reverse_reverse]
  -- the members-reference pattern does not match the bulleted line
  have hB : subMemberRef ('-' :: ' ' :: c.data) = '-' :: ' ' :: c.data := by
    have hm : memberRefTail ('-' :: ' ' :: c.data) = none := by
      show checklistTailAfterDash ((' ' :: c.data).dropWhile isPySpace) = none
      rw [List.dropWhile_cons_of_pos (by decide), hpair.1]
      exact hcl
    simp [subMemberRef, hm]
  -- the bullet regex strips exactly the added `'- '`
  have hC : stripBullets ('-' :: ' ' :: c.data) = c.data := by
    have hcls : ¬(hd = '-' ∨ hd = '*' ∨ isPySpace hd = true) := by
      rintro (hx | hx | hx)
      · exact hhd_bullet (Or.inl hx)
      · exact hhd_bullet (Or.inr hx)
      · rw [hhd_space] at hx; exact Bool.false_ne_true hx
    show (if ('-' = '-' ∨ '-' = '*') then
        ('-' :: ' ' :: c.data).dropWhile (fun d => d = '-' ∨ d = '*' ∨ isPySpace d)
      else ('-' :: ' ' :: c.data)) = c.data
    rw [if_pos (Or.inl rfl), List.dropWhile_cons_of_pos (by simp),
      List.dropWhile_cons_of_pos (by simp [isPySpace]), hc,
      List.dropWhile_cons_of_neg (by simpa using hcls), ← hc]
  unfold cleanLine
  rw [hA, hB, hA, hC, hstrip]

theorem mk_data (c : String) : String.mk c.data = c := by
  cases c
  rfl

/-- Splitting the generated merge-request description recovers one
bulleted line per change item, then the blank/separator/blank/footer
lines of the fixed tail. -/
theorem splitNl_mrDescription (changes : List String) (hne : changes ≠ [])
    (hnl : ∀ c ∈ changes, '\n' ∉ c.data) :
    splitNl (mrDescription changes).data =
      changes.map (fun c => '-' :: ' ' :: c.data) ++
        [[], ['-', ' ', '-', ' ', '-', ' '], [], ("- [ ] @brunabxs" : String).data] := by
  induction changes with
  | nil => exact absurd rfl hne
  | cons c rest ih =>
    have hcnl : '\n' ∉ c.data := hnl c (List.mem_cons_self c rest)
    have hline : '\n' ∉ ('-' :: ' ' :: c.data) := by simp [hcnl]
    cases rest with
    | nil =>
      have hdata : (mrDescription [c]).data =
          ('-' :: ' ' :: c.data) ++
            '\n' :: ("\n- - - \n\n- [ ] @brunabxs" : String).data := by
        simp [mrDescription, pyJoin, String.data_append]
      rw [hdata, splitNl_append_nl _ _ hline]
      have hT : splitNl ("\n- - - \n\n- [ ] @brunabxs" : String).data =
          [[], ['-', ' ', '-', ' ', '-', ' '], [], ("- [ ] @brunabxs" : String).data] := by
        decide
      rw [hT]
      rfl
    | cons d rest' =>
      have hdata : (mrDescription (c :: d :: rest')).data =
          ('-' :: ' ' :: c.data) ++ '\n' :: (mrDescription (d :: rest')).data := by
        simp [mrDescription, pyJoin, String.data_append]
      rw [hdata, splitNl_append_nl _ _ hline,
        ih (by simp) (fun e he => hnl e (List.mem_cons_of_mem _ he))]
      rfl

/-- The bulleted change lines of the description round-trip through the
per-line pipeline and the non-empty filter. -/
theorem roundtrip_bulleted_lines (changes : List String)
    (hgood : ∀ c ∈ changes, goodChangeItem c = true) :
    ((changes.map (fun c => '-' :: ' ' :: c.data)).map cleanLine).filterMap
      (fun l => if l.isEmpty then none else some (String.mk l)) = changes := by
  induction changes with
  | nil => rfl
  | cons c rest ih =>
    have hc := hgood c (List.mem_cons_self c rest)
    have hempty : c.data.isEmpty = false := by
      rw [goodChangeItem, Bool.and_eq_true, Bool.and_eq_true, Bool.and_eq_true,
        Bool.and_eq_true] at hc
      have h1 := hc.1.1.1.1
      cases hcd : c.data with
      | nil =>
        have : c = "" := String.ext (show c.data = "".data by rw [hcd])
        rw [this] at h1
        exact absurd h1 (by decide)
      | cons a b => rfl
    simp only [List.map_cons, List.filterMap_cons, cleanLine_bulleted c hc, hempty]
    rw [mk_data]
    exact congrArg (c :: ·) (ih (fun d hd => hgood d (List.mem_cons_of_mem _ hd)))

/-- Claim C10: round-trip between publication and extraction: for every
non-empty list of change items that are each non-empty, single-line,
whitespace-trimmed, and do not begin with a `-`/`*` bullet marker nor
with a checklist fragment `[ ] @handle`, applying `clean_content` to the
merge-request description that `git_new_merge_request` builds (bullets
joined by newlines, the `- - - ` separator, the `- [ ] @brunabxs`
footer) returns exactly the original list: the bullets are re-stripped
and the separator and reviewer-checklist footer are discarded. -/
theorem clean_content_mrDescription_roundtrip (changes : List String)
    (hne : changes ≠ []) (hgood : ∀ c ∈ changes, goodChangeItem c = true) :
    clean_content (mrDescription changes) = changes := by
  have hnl : ∀ c ∈ changes, '\n' ∉ c.data := by
    intro c hm hmem
    have hc := hgood c hm
    rw [goodChangeItem, Bool.and_eq_true, Bool.and_eq_true, Bool.and_eq_true,
      Bool.and_eq_true] at hc
    have h2 := hc.1.1.1.2
    rw [List.all_eq_true] at h2
    have := h2 '\n' hmem
    simp at this
  rw [clean_content_lines, splitNl_mrDescription changes hne hnl,
    List.map_append, List.filterMap_append, roundtrip_bulleted_lines changes hgood]
  have htail :
      (([[], ['-', ' ', '-', ' ', '-', ' '], [],
          ("- [ ] @brunabxs" : String).data].map cleanLine).filterMap
        (fun l => if l.isEmpty then none else some (String.mk l))) = [] := by
    decide
  rw [htail, List.append_nil]

/-- Claim C10, witness: the theorem applied at
`changes = ["Fixed bug", "Added feature"]`. -/
theorem clean_content_mrDescription_roundtrip_witness :
    clean_content
        (mrDescription ["Fixed bug", "Added feature"]) = ["Fixed bug", "Added feature"] := by
  exact clean_content_mrDescription_roundtrip ["Fixed bug", "Added feature"]
    (by simp) (by decide)

end GitlabChangelog
